import Mathlib

/-!
Shallow embedding of the `typed_nodes` node store (`src/node_group.rs` and
`src/lib.rs`).

The Rust code stores values of one concrete type per `NodeGroup` in a
`slotmap::SlotMap` (a generational arena: every insertion returns a key that
is distinct from every key the map has handed out before) together with a
hash map from external ids to slot keys.  The embedding models the slot map
as an association list with a monotone `nextKey` counter (which captures the
generational freshness guarantee) and the id hash map as an association list
with unique keys.  The `Nodes` store keeps one group per concrete type; types
are modelled by a tag universe `τ` together with a value family `Val : τ → Type`,
mirroring `TypeId`-keyed dispatch.
-/

set_option autoImplicit false
set_option linter.unusedSectionVars false

namespace TypedNodes

/-- Slot of a node group: either reserved (no value yet) or filled,
from `enum Slot<T>` in `node_group.rs`. -/
inductive Slot (T : Type) where
  | Reserved : Slot T
  | Filled (value : T) : Slot T
  deriving DecidableEq, Repr

namespace Slot

variable {T : Type}

/-- Translation of `Slot::as_filled` (and its `_mut`/`into_filled` variants,
which are behaviourally identical in a pure model). -/
def as_filled : Slot T → Option T
  | .Reserved => none
  | .Filled v => some v

/-- Whether the slot holds a value. -/
def isFilled : Slot T → Bool
  | .Reserved => false
  | .Filled _ => true

@[simp] theorem as_filled_reserved : (Slot.Reserved : Slot T).as_filled = none := rfl
@[simp] theorem as_filled_filled (v : T) : (Slot.Filled v).as_filled = some v := rfl
@[simp] theorem isFilled_reserved : (Slot.Reserved : Slot T).isFilled = false := rfl
@[simp] theorem isFilled_filled (v : T) : (Slot.Filled v).isFilled = true := rfl

theorem as_filled_isSome_iff (s : Slot T) : s.as_filled.isSome ↔ s.isFilled := by
  cases s <;> simp [as_filled, isFilled]

end Slot

/-- Model of `slotmap::SlotMap<DefaultKey, Slot<T>>`: an association list of
slot keys paired with a counter of never-before-issued keys.  The counter
captures the generational-index guarantee that an inserted key differs from
every key the map has ever handed out. -/
structure SlotMap (T : Type) where
  nextKey : Nat
  entries : List (Nat × Slot T)
  deriving Repr, DecidableEq

namespace SlotMap

variable {T : Type}

/-- Empty slot map, from `SlotMap::default`. -/
def empty : SlotMap T := ⟨0, []⟩

/-- Model of `SlotMap::insert`: allocate a fresh key for the slot. -/
def insert (m : SlotMap T) (s : Slot T) : Nat × SlotMap T :=
  (m.nextKey, ⟨m.nextKey + 1, m.entries ++ [(m.nextKey, s)]⟩)

/-- Model of `SlotMap::get`. -/
def get (m : SlotMap T) (k : Nat) : Option (Slot T) :=
  (m.entries.find? (fun e => e.1 == k)).map (·.2)

/-- Model of writing through `SlotMap::get_mut` (`*slot = ...`). -/
def set (m : SlotMap T) (k : Nat) (s : Slot T) : SlotMap T :=
  ⟨m.nextKey, m.entries.map (fun e => if e.1 == k then (e.1, s) else e)⟩

/-- Model of `SlotMap::remove`: returns the removed slot, if present. -/
def remove (m : SlotMap T) (k : Nat) : Option (Slot T) × SlotMap T :=
  match m.get k with
  | none => (none, m)
  | some s => (some s, ⟨m.nextKey, m.entries.filter (fun e => !(e.1 == k))⟩)

/-- Structural well-formedness of the slot map model: slot keys are unique
and below the fresh-key counter (both are guaranteed by `slotmap`). -/
def WF (m : SlotMap T) : Prop :=
  (m.entries.map Prod.fst).Nodup ∧ ∀ e ∈ m.entries, e.1 < m.nextKey

instance (m : SlotMap T) : Decidable m.WF := by
  unfold WF; infer_instance

end SlotMap

/-- Typed key, from `struct Key<T>`: a slot identity with a phantom node type. -/
structure Key (T : Type) where
  slot : Nat
  deriving DecidableEq, Repr

/-- Reservation key, from `struct ReservedKey<T>`. -/
structure ReservedKey (T : Type) where
  slot : Nat
  deriving DecidableEq, Repr

/-- Per-type node group, from `struct NodeGroup<I, T>`: the slot collection
plus the id index. -/
structure NodeGroup (I T : Type) where
  nodes : SlotMap T
  id_map : List (I × Nat)
  deriving Repr, DecidableEq

namespace NodeGroup

variable {I T : Type} [DecidableEq I]

/-- Empty group, from `NodeGroup::default`. -/
def empty : NodeGroup I T := ⟨SlotMap.empty, []⟩

/-- Model of `HashMap::insert` on the id index: returns the previous slot for
the id (if any) and the updated index. -/
def idMapInsert (m : List (I × Nat)) (id : I) (slot : Nat) :
    Option Nat × List (I × Nat) :=
  ((m.find? (fun e => e.1 == id)).map (·.2),
    m.filter (fun e => !(e.1 == id)) ++ [(id, slot)])

/-- Translation of `NodeGroup::insert`. -/
def insert (g : NodeGroup I T) (node : T) : Key T × NodeGroup I T :=
  let (slot, nodes) := g.nodes.insert (Slot.Filled node)
  (⟨slot⟩, { g with nodes := nodes })

/-- Translation of `NodeGroup::insert_reserved`.  The `.expect("reserved slot
was removed")` panic is modelled by returning `none`. -/
def insert_reserved (g : NodeGroup I T) (key : ReservedKey T) (node : T) :
    Option (Key T × NodeGroup I T) :=
  match g.nodes.get key.slot with
  | none => none
  | some _ => some (⟨key.slot⟩, { g with nodes := g.nodes.set key.slot (Slot.Filled node) })

/-- Translation of `NodeGroup::get`. -/
def get (g : NodeGroup I T) (key : Key T) : Option T :=
  (g.nodes.get key.slot).bind Slot.as_filled

/-- Translation of `NodeGroup::remove`.  The guard mirrors
`matches!(self.nodes.get(key.slot), Some(&Slot::Reserved) | None)`. -/
def remove (g : NodeGroup I T) (key : Key T) : Option T × NodeGroup I T :=
  match g.nodes.get key.slot with
  | none => (none, g)
  | some Slot.Reserved => (none, g)
  | some (Slot.Filled _) =>
    let id_map := g.id_map.filter (fun e => !(e.2 == key.slot))
    let (removed, nodes) := g.nodes.remove key.slot
    (removed.bind Slot.as_filled, { nodes := nodes, id_map := id_map })

/-- Translation of `NodeGroup::insert_with_id`. -/
def insert_with_id (g : NodeGroup I T) (id : I) (node : T) :
    (Key T × Option (Key T)) × NodeGroup I T :=
  let (slot, nodes) := g.nodes.insert (Slot.Filled node)
  let (old_slot, id_map) := idMapInsert g.id_map id slot
  ((⟨slot⟩, old_slot.map Key.mk), { nodes := nodes, id_map := id_map })

/-- Translation of `NodeGroup::reserve_with_id`. -/
def reserve_with_id (g : NodeGroup I T) (id : I) :
    (ReservedKey T × Option (Key T)) × NodeGroup I T :=
  let (slot, nodes) := g.nodes.insert Slot.Reserved
  let (old_slot, id_map) := idMapInsert g.id_map id slot
  ((⟨slot⟩, old_slot.map Key.mk), { nodes := nodes, id_map := id_map })

/-- Translation of `NodeGroup::get_key`. -/
def get_key (g : NodeGroup I T) (id : I) : Option (Key T) :=
  ((g.id_map.find? (fun e => e.1 == id)).map (·.2)).map Key.mk

/-- Structural well-formedness: the slot map is well formed and the id index
has unique keys (guaranteed by `HashMap`). -/
def WF (g : NodeGroup I T) : Prop :=
  g.nodes.WF ∧ (g.id_map.map Prod.fst).Nodup

instance (g : NodeGroup I T) : Decidable g.WF := by
  unfold WF; infer_instance

/-- The id-index invariant: every entry of the id index points at a slot that
currently exists in the group (reserved or filled). -/
def IdIndexOK (g : NodeGroup I T) : Prop :=
  ∀ e ∈ g.id_map, (g.nodes.get e.2).isSome

instance (g : NodeGroup I T) : Decidable g.IdIndexOK := by
  unfold IdIndexOK; infer_instance

/-- Number of filled slots in the group. -/
def filledCount (g : NodeGroup I T) : Nat :=
  g.nodes.entries.countP (fun e => e.2.isFilled)

/-- Number of allocated slots (reserved or filled). -/
def slotCount (g : NodeGroup I T) : Nat :=
  g.nodes.entries.length

end NodeGroup

/-- Type-erased key, from `struct DynKey`: a slot identity plus a runtime type
tag.  Concrete Rust types are modelled by tags drawn from a universe `τ`;
`TypeId::of::<T>()` becomes the tag of `T` (distinct Rust types have distinct
`TypeId`s, as distinct tags do). -/
structure DynKey (τ : Type) where
  slot : Nat
  node_type : τ
  deriving DecidableEq, Repr

namespace DynKey

variable {τ : Type} [DecidableEq τ] {Val : τ → Type}

/-- Translation of `DynKey::new::<T>`: the tag records the key's static type. -/
def new (Val : τ → Type) (t : τ) (key : Key (Val t)) : DynKey τ :=
  ⟨key.slot, t⟩

/-- Translation of `DynKey::into_static::<T>`: the checked downcast back to a
typed key, succeeding only when the runtime tag matches the requested type. -/
def into_static (Val : τ → Type) (t : τ) (dk : DynKey τ) : Option (Key (Val t)) :=
  if dk.node_type = t then some ⟨dk.slot⟩ else none

end DynKey

/-- The erased view of a stored value (`B::DynSelf` under the `AnyBounds`
policy): the value tagged with its concrete type, as produced by
`T::as_dyn_ref`. -/
abbrev DynVal {τ : Type} (Val : τ → Type) : Type := Σ t : τ, Val t

namespace NodeGroup

variable {I : Type} [DecidableEq I] {τ : Type} [DecidableEq τ] {Val : τ → Type}

/-- Translation of `DynNodeGroup::get_dyn for NodeGroup<I, T>`:
`self.get(key.into_static()?).map(T::as_dyn_ref)` for the group of tag `t`. -/
def get_dyn (t : τ) (g : NodeGroup I (Val t)) (key : DynKey τ) :
    Option (DynVal Val) :=
  (DynKey.into_static Val t key).bind fun k => (g.get k).map (fun v => ⟨t, v⟩)

/-- Translation of `DynNodeGroup::iter_dyn for NodeGroup<I, T>` for the group
of tag `t`: the filtered traversal of the slot map, yielding a `DynKey` and
the erased value for every filled slot. -/
def iter_dyn (t : τ) (g : NodeGroup I (Val t)) :
    List (DynKey τ × DynVal Val) :=
  g.nodes.entries.filterMap fun e =>
    (e.2.as_filled).map fun v => (⟨e.1, t⟩, ⟨t, v⟩)

/-- Translation of `DynNodeGroup::iter_dyn_mut for NodeGroup<I, T>`: in the
pure model the mutable traversal visits the same pairs as `iter_dyn`. -/
def iter_dyn_mut (t : τ) (g : NodeGroup I (Val t)) :
    List (DynKey τ × DynVal Val) :=
  g.nodes.entries.filterMap fun e =>
    (e.2.as_filled).map fun v => (⟨e.1, t⟩, ⟨t, v⟩)

end NodeGroup

/-- The store, from `struct Nodes<I, B>` in `lib.rs`: one boxed group per
concrete type present.  `tags` lists the types whose group has been created
(the `TypeId`-keyed hash map's key set, in some traversal order); `groups` is
total, with never-created types mapped to the default empty group, which is
observationally what `node_groups.get(&TypeId::of::<T>())? = None` yields. -/
structure Nodes (I : Type) (τ : Type) (Val : τ → Type) where
  tags : List τ
  groups : (t : τ) → NodeGroup I (Val t)

namespace Nodes

variable {I : Type} [DecidableEq I] {τ : Type} [DecidableEq τ] {Val : τ → Type}

/-- Translation of `Nodes::new`. -/
def new (I : Type) (τ : Type) (Val : τ → Type) : Nodes I τ Val :=
  ⟨[], fun _ => NodeGroup.empty⟩

/-- Model of `node_groups.entry(TypeId::of::<T>()).or_insert_with(...)`
followed by replacing the group: record that the group for `t` exists and
store its new state. -/
def updateGroup (s : Nodes I τ Val) (t : τ) (g : NodeGroup I (Val t)) :
    Nodes I τ Val :=
  ⟨if t ∈ s.tags then s.tags else s.tags ++ [t], Function.update s.groups t g⟩

/-- Translation of `Nodes::insert::<T>`. -/
def insert (s : Nodes I τ Val) (t : τ) (node : Val t) :
    Key (Val t) × Nodes I τ Val :=
  let (k, g) := (s.groups t).insert node
  (k, s.updateGroup t g)

/-- Translation of `Nodes::insert_reserved::<T>`; `none` models the
`"reserved slot was removed"` panic. -/
def insert_reserved (s : Nodes I τ Val) (t : τ) (key : ReservedKey (Val t))
    (node : Val t) : Option (Key (Val t) × Nodes I τ Val) :=
  ((s.groups t).insert_reserved key node).map fun (k, g) => (k, s.updateGroup t g)

/-- Translation of `Nodes::get::<T>`: `None` when no group for `T` exists. -/
def get (s : Nodes I τ Val) (t : τ) (key : Key (Val t)) : Option (Val t) :=
  if t ∈ s.tags then (s.groups t).get key else none

/-- Translation of `Nodes::remove::<T>`. -/
def remove (s : Nodes I τ Val) (t : τ) (key : Key (Val t)) :
    Option (Val t) × Nodes I τ Val :=
  if t ∈ s.tags then
    let (v, g) := (s.groups t).remove key
    (v, s.updateGroup t g)
  else (none, s)

/-- Translation of `Nodes::insert_with_id::<T>`. -/
def insert_with_id (s : Nodes I τ Val) (t : τ) (id : I) (node : Val t) :
    (Key (Val t) × Option (Key (Val t))) × Nodes I τ Val :=
  let (r, g) := (s.groups t).insert_with_id id node
  (r, s.updateGroup t g)

/-- Translation of `Nodes::reserve_with_id::<T>`. -/
def reserve_with_id (s : Nodes I τ Val) (t : τ) (id : I) :
    (ReservedKey (Val t) × Option (Key (Val t))) × Nodes I τ Val :=
  let (r, g) := (s.groups t).reserve_with_id id
  (r, s.updateGroup t g)

/-- Translation of `Nodes::get_key::<T>`. -/
def get_key (s : Nodes I τ Val) (t : τ) (id : I) : Option (Key (Val t)) :=
  if t ∈ s.tags then (s.groups t).get_key id else none

/-- Translation of `Nodes::get_dyn`: look the group up by the key's runtime
type tag. -/
def get_dyn (s : Nodes I τ Val) (key : DynKey τ) : Option (DynVal Val) :=
  if key.node_type ∈ s.tags then
    NodeGroup.get_dyn key.node_type (s.groups key.node_type) key
  else none

/-- Translation of `Nodes::iter_dyn`: flatten every present group's dynamic
traversal (groups in the hash map's traversal order, modelled by `tags`). -/
def iter_dyn (s : Nodes I τ Val) : List (DynKey τ × DynVal Val) :=
  s.tags.flatMap fun t => NodeGroup.iter_dyn t (s.groups t)

/-- Translation of `Nodes::iter_dyn_mut`. -/
def iter_dyn_mut (s : Nodes I τ Val) : List (DynKey τ × DynVal Val) :=
  s.tags.flatMap fun t => NodeGroup.iter_dyn_mut t (s.groups t)

/-- Translation of `Nodes::nodes_dyn`: the same traversal with the key
discarded (`let (_, node) = self.inner.next()?`). -/
def nodes_dyn (s : Nodes I τ Val) : List (DynVal Val) :=
  s.iter_dyn.map Prod.snd

/-- Translation of `Nodes::nodes_dyn_mut`. -/
def nodes_dyn_mut (s : Nodes I τ Val) : List (DynVal Val) :=
  s.iter_dyn_mut.map Prod.snd

/-- Well-formedness of the store: the present-type list has no duplicates
(hash-map keys are unique) and every group is structurally well formed. -/
def WF (s : Nodes I τ Val) : Prop :=
  s.tags.Nodup ∧ ∀ t : τ, (s.groups t).WF

instance [Fintype τ] (s : Nodes I τ Val) : Decidable s.WF := by
  unfold WF
  infer_instance

/-- Total number of filled values in the store. -/
def totalFilled (s : Nodes I τ Val) : Nat :=
  (s.tags.map fun t => (s.groups t).filledCount).sum

/-- Total number of allocated slots (reserved or filled) in the store. -/
def totalSlots (s : Nodes I τ Val) : Nat :=
  (s.tags.map fun t => (s.groups t).slotCount).sum

end Nodes

/-! ### Association-list helper lemmas -/

section AssocLemmas

variable {α β : Type} [BEq α] [LawfulBEq α]

theorem assoc_find?_filter_key_self (l : List (α × β)) (k : α) :
    (l.filter fun e => !(e.1 == k)).find? (fun e => e.1 == k) = none := by
  refine List.find?_eq_none.mpr ?_
  intro x hx
  have := (List.mem_filter.mp hx).2
  simpa using this

theorem assoc_find?_filter_key_ne (l : List (α × β)) {k k' : α} (h : k' ≠ k) :
    (l.filter fun e => !(e.1 == k)).find? (fun e => e.1 == k') =
      l.find? (fun e => e.1 == k') := by
  induction l with
  | nil => rfl
  | cons e t ih =>
    by_cases hek : e.1 = k
    · have hk' : ¬ (fun e => e.1 == k') e = true := by
        simp only [beq_iff_eq, hek]
        exact fun hc => h hc.symm
      rw [List.find?_cons_of_neg t hk']
      simp [List.filter_cons, hek, ih]
    · by_cases hek' : e.1 = k'
      · simp [List.filter_cons, hek, hek', h]
      · simp [List.filter_cons, hek, hek', ih]

theorem assoc_find?_eq_of_mem {l : List (α × β)}
    (hnd : (l.map Prod.fst).Nodup) {a : α} {b : β} (h : (a, b) ∈ l) :
    l.find? (fun e => e.1 == a) = some (a, b) := by
  induction l with
  | nil => simp at h
  | cons e t ih =>
    rw [List.map_cons] at hnd
    have h1 := (List.nodup_cons.mp hnd).1
    have h2 := (List.nodup_cons.mp hnd).2
    rcases List.mem_cons.mp h with he | ht
    · simp [← he]
    · have hea : e.1 ≠ a := by
        intro hcontra
        exact h1 (hcontra ▸ (List.mem_map.mpr ⟨(a, b), ht, rfl⟩))
      have := ih h2 ht
      simp [hea, this]

theorem assoc_mem_unique {l : List (α × β)}
    (hnd : (l.map Prod.fst).Nodup) {a : α} {b c : β}
    (hb : (a, b) ∈ l) (hc : (a, c) ∈ l) : b = c := by
  have h1 := assoc_find?_eq_of_mem hnd hb
  have h2 := assoc_find?_eq_of_mem hnd hc
  rw [h1] at h2
  have h3 := Option.some.inj h2
  exact (Prod.ext_iff.mp h3).2

theorem assoc_find?_mem_key {l : List (α × β)} {k : α} {e : α × β}
    (h : l.find? (fun e => e.1 == k) = some e) : e ∈ l ∧ e.1 = k :=
  ⟨List.mem_of_find?_eq_some h, by simpa using List.find?_some h⟩

theorem assoc_find?_set_self (l : List (α × β)) (k : α) (s : β) :
    ((l.map fun e => if e.1 == k then (e.1, s) else e).find? fun e => e.1 == k)
      = (l.find? fun e => e.1 == k).map fun e => (e.1, s) := by
  induction l with
  | nil => rfl
  | cons e t ih =>
    rw [List.map_cons]
    by_cases hbe : (e.1 == k) = true
    · rw [if_pos hbe,
        List.find?_cons_of_pos (t.map fun e => if e.1 == k then (e.1, s) else e)
          (show ((e.1, s).1 == k) = true from hbe),
        List.find?_cons_of_pos t hbe]
      rfl
    · rw [if_neg hbe,
        List.find?_cons_of_neg (t.map fun e => if e.1 == k then (e.1, s) else e) hbe,
        List.find?_cons_of_neg t hbe]
      exact ih

theorem assoc_find?_set_ne (l : List (α × β)) {k k' : α} (s : β) (h : k' ≠ k) :
    ((l.map fun e => if e.1 == k then (e.1, s) else e).find? fun e => e.1 == k')
      = l.find? fun e => e.1 == k' := by
  induction l with
  | nil => rfl
  | cons e t ih =>
    rw [List.map_cons]
    by_cases hbe : (e.1 == k) = true
    · have h1 : e.1 = k := by simpa using hbe
      have hk' : ¬ (e.1 == k') = true := by
        simp only [h1, beq_iff_eq]
        exact fun hc => h hc.symm
      rw [if_pos hbe,
        List.find?_cons_of_neg (t.map fun e => if e.1 == k then (e.1, s) else e)
          (show ¬ ((e.1, s).1 == k') = true from hk'),
        List.find?_cons_of_neg t hk']
      exact ih
    · rw [if_neg hbe]
      by_cases hbe' : (e.1 == k') = true
      · rw [List.find?_cons_of_pos (t.map fun e => if e.1 == k then (e.1, s) else e) hbe',
          List.find?_cons_of_pos t hbe']
      · rw [List.find?_cons_of_neg (t.map fun e => if e.1 == k then (e.1, s) else e) hbe',
          List.find?_cons_of_neg t hbe']
        exact ih

theorem assoc_find?_insert_self (l : List (α × β)) (k : α) (v : β) :
    ((l.filter fun e => !(e.1 == k)) ++ [(k, v)]).find? (fun e => e.1 == k)
      = some (k, v) := by
  rw [List.find?_append, assoc_find?_filter_key_self]
  simp

theorem assoc_find?_insert_ne (l : List (α × β)) {k k' : α} (v : β) (h : k' ≠ k) :
    ((l.filter fun e => !(e.1 == k)) ++ [(k, v)]).find? (fun e => e.1 == k')
      = l.find? (fun e => e.1 == k') := by
  rw [List.find?_append, assoc_find?_filter_key_ne l h]
  have hkk : ¬ k = k' := fun hc => h hc.symm
  simp [hkk]

theorem assoc_insert_keys_nodup (l : List (α × β)) (k : α) (v : β)
    (hnd : (l.map Prod.fst).Nodup) :
    (((l.filter fun e => !(e.1 == k)) ++ [(k, v)]).map Prod.fst).Nodup := by
  rw [List.map_append]
  refine List.Nodup.append ?_ (by simp) ?_
  · exact hnd.sublist ((List.filter_sublist l).map Prod.fst)
  · intro a ha
    rcases List.mem_map.mp ha with ⟨e, he, rfl⟩
    have : ¬ e.1 = k := by simpa using (List.mem_filter.mp he).2
    simpa using this

end AssocLemmas

/-! ### SlotMap lemmas -/

namespace SlotMap

variable {T : Type}

theorem get_insert_self (m : SlotMap T) (s : Slot T) (hwf : m.WF) :
    ((m.insert s).2).get (m.insert s).1 = some s := by
  unfold insert get
  simp only
  rw [List.find?_append]
  have h1 : m.entries.find? (fun e => e.1 == m.nextKey) = none := by
    refine List.find?_eq_none.mpr ?_
    intro e he
    have := hwf.2 e he
    simp [Nat.ne_of_lt this]
  simp [h1]

theorem get_insert_ne (m : SlotMap T) (s : Slot T) {k : Nat} (hk : k ≠ m.nextKey) :
    ((m.insert s).2).get k = m.get k := by
  unfold insert get
  simp only
  rw [List.find?_append]
  have h2 : ([(m.nextKey, s)].find? (fun e => e.1 == k)) = none := by
    have : ¬ m.nextKey = k := fun hc => hk hc.symm
    simp [this]
  simp [h2]

theorem get_of_lt_nextKey (m : SlotMap T) (hwf : m.WF) {k : Nat}
    (hk : m.nextKey ≤ k) : m.get k = none := by
  unfold get
  have h1 : m.entries.find? (fun e => e.1 == k) = none := by
    refine List.find?_eq_none.mpr ?_
    intro e he
    have := hwf.2 e he
    simp [Nat.ne_of_lt (Nat.lt_of_lt_of_le this hk)]
  simp [h1]

theorem get_set_eq (m : SlotMap T) (k : Nat) (s : Slot T) :
    (m.set k s).get k = (m.get k).map fun _ => s := by
  unfold set get
  simp only
  rw [assoc_find?_set_self]
  cases m.entries.find? (fun e => e.1 == k) <;> rfl

theorem get_set_ne (m : SlotMap T) {k k' : Nat} (s : Slot T) (h : k' ≠ k) :
    (m.set k s).get k' = m.get k' := by
  unfold set get
  simp only
  rw [assoc_find?_set_ne _ s h]

theorem get_remove_self (m : SlotMap T) (k : Nat) : ((m.remove k).2).get k = none := by
  unfold remove
  cases hg : m.get k with
  | none => simpa using hg
  | some s =>
    simp only
    unfold get
    simp only
    rw [assoc_find?_filter_key_self]
    rfl

theorem get_remove_ne (m : SlotMap T) {k k' : Nat} (h : k' ≠ k) :
    ((m.remove k).2).get k' = m.get k' := by
  unfold remove
  cases hg : m.get k with
  | none => simp
  | some s =>
    simp only
    unfold get
    simp only
    rw [assoc_find?_filter_key_ne _ h]

theorem remove_fst (m : SlotMap T) (k : Nat) : (m.remove k).1 = m.get k := by
  unfold remove
  cases hg : m.get k <;> simp [hg]

theorem insert_WF (m : SlotMap T) (s : Slot T) (hwf : m.WF) :
    ((m.insert s).2).WF := by
  unfold insert WF
  simp only
  constructor
  · rw [List.map_append]
    refine List.Nodup.append hwf.1 (by simp) ?_
    intro a ha
    rcases List.mem_map.mp ha with ⟨e, he, rfl⟩
    have := hwf.2 e he
    simp [Nat.ne_of_lt this]
  · intro e he
    rcases List.mem_append.mp he with h1 | h1
    · exact Nat.lt_succ_of_lt (hwf.2 e h1)
    · simp at h1
      rw [h1]
      exact Nat.lt_succ_self _

theorem set_WF (m : SlotMap T) (k : Nat) (s : Slot T) (hwf : m.WF) :
    (m.set k s).WF := by
  unfold set WF
  simp only
  have hkeys : (m.entries.map fun e => if e.1 == k then (e.1, s) else e).map Prod.fst
      = m.entries.map Prod.fst := by
    rw [List.map_map]
    refine List.map_congr_left ?_
    intro e _
    by_cases he : e.1 = k <;> simp [he]
  constructor
  · rw [hkeys]; exact hwf.1
  · intro e he
    rcases List.mem_map.mp he with ⟨e0, he0, rfl⟩
    by_cases h0 : e0.1 = k <;> simpa [h0] using hwf.2 e0 he0

theorem remove_WF (m : SlotMap T) (k : Nat) (hwf : m.WF) :
    ((m.remove k).2).WF := by
  unfold remove
  cases hg : m.get k with
  | none => simpa using hwf
  | some s =>
    simp only
    unfold WF
    simp only
    constructor
    · exact hwf.1.sublist ((List.filter_sublist m.entries).map Prod.fst)
    · intro e he
      exact hwf.2 e (List.mem_of_mem_filter he)

theorem nextKey_remove (m : SlotMap T) (k : Nat) :
    ((m.remove k).2).nextKey = m.nextKey := by
  unfold remove
  cases hg : m.get k <;> simp

theorem nextKey_set (m : SlotMap T) (k : Nat) (s : Slot T) :
    (m.set k s).nextKey = m.nextKey := rfl

theorem get_isSome_lt (m : SlotMap T) (hwf : m.WF) {k : Nat}
    (h : (m.get k).isSome) : k < m.nextKey := by
  unfold get at h
  cases hf : m.entries.find? (fun e => e.1 == k) with
  | none => rw [hf] at h; simp at h
  | some e =>
    have hmem := List.mem_of_find?_eq_some hf
    have hek : e.1 = k := by simpa using List.find?_some hf
    exact hek ▸ hwf.2 e hmem

end SlotMap

/-! ### NodeGroup lemmas -/

namespace NodeGroup

variable {I T : Type} [DecidableEq I]

theorem insert_key (g : NodeGroup I T) (v : T) :
    (g.insert v).1 = ⟨g.nodes.nextKey⟩ := rfl

theorem insert_nodes (g : NodeGroup I T) (v : T) :
    ((g.insert v).2).nodes = (g.nodes.insert (Slot.Filled v)).2 := rfl

theorem insert_id_map (g : NodeGroup I T) (v : T) :
    ((g.insert v).2).id_map = g.id_map := rfl

theorem insert_with_id_key (g : NodeGroup I T) (id : I) (v : T) :
    (g.insert_with_id id v).1.1 = ⟨g.nodes.nextKey⟩ := rfl

theorem insert_with_id_prev (g : NodeGroup I T) (id : I) (v : T) :
    (g.insert_with_id id v).1.2 = g.get_key id := rfl

theorem insert_with_id_nodes (g : NodeGroup I T) (id : I) (v : T) :
    ((g.insert_with_id id v).2).nodes = (g.nodes.insert (Slot.Filled v)).2 := rfl

theorem insert_with_id_id_map (g : NodeGroup I T) (id : I) (v : T) :
    ((g.insert_with_id id v).2).id_map
      = (idMapInsert g.id_map id g.nodes.nextKey).2 := rfl

theorem reserve_with_id_key (g : NodeGroup I T) (id : I) :
    ((g.reserve_with_id id).1.1 : ReservedKey T) = ⟨g.nodes.nextKey⟩ := rfl

theorem reserve_with_id_prev (g : NodeGroup I T) (id : I) :
    ((g.reserve_with_id id).1.2 : Option (Key T)) = g.get_key id := rfl

theorem reserve_with_id_nodes (g : NodeGroup I T) (id : I) :
    ((g.reserve_with_id id).2).nodes = (g.nodes.insert Slot.Reserved).2 := rfl

theorem reserve_with_id_id_map (g : NodeGroup I T) (id : I) :
    ((g.reserve_with_id id).2).id_map
      = (idMapInsert g.id_map id g.nodes.nextKey).2 := rfl

theorem get_key_idMapInsert_self (m : List (I × Nat)) (id : I) (slot : Nat) :
    ((((idMapInsert m id slot).2).find? fun e => e.1 == id).map (·.2)) = some slot := by
  unfold idMapInsert
  simp only
  rw [assoc_find?_insert_self]
  rfl

theorem get_key_idMapInsert_ne (m : List (I × Nat)) {id id' : I} (slot : Nat)
    (h : id' ≠ id) :
    (((idMapInsert m id slot).2).find? fun e => e.1 == id')
      = m.find? fun e => e.1 == id' := by
  unfold idMapInsert
  simp only
  rw [assoc_find?_insert_ne m _ h]

theorem get_key_insert_with_id_self (g : NodeGroup I T) (id : I) (v : T) :
    ((g.insert_with_id id v).2).get_key id = some ⟨g.nodes.nextKey⟩ := by
  unfold get_key
  rw [insert_with_id_id_map, get_key_idMapInsert_self]
  rfl

theorem get_key_insert_with_id_ne (g : NodeGroup I T) {id id' : I} (v : T)
    (h : id' ≠ id) :
    ((g.insert_with_id id v).2).get_key id' = g.get_key id' := by
  unfold get_key
  rw [insert_with_id_id_map, get_key_idMapInsert_ne _ _ h]

theorem get_key_reserve_with_id_self (g : NodeGroup I T) (id : I) :
    ((g.reserve_with_id id).2).get_key id = some ⟨g.nodes.nextKey⟩ := by
  unfold get_key
  rw [reserve_with_id_id_map, get_key_idMapInsert_self]
  rfl

theorem get_insert_with_id_fresh (g : NodeGroup I T) (id : I) (v : T)
    (hwf : g.WF) :
    ((g.insert_with_id id v).2).get ⟨g.nodes.nextKey⟩ = some v := by
  unfold get
  rw [insert_with_id_nodes]
  rw [show (⟨g.nodes.nextKey⟩ : Key T).slot = (g.nodes.insert (Slot.Filled v)).1 from rfl]
  rw [SlotMap.get_insert_self g.nodes _ hwf.1]
  rfl

theorem get_insert_with_id_stale (g : NodeGroup I T) (id : I) (v : T)
    {k : Key T} (hk : k.slot ≠ g.nodes.nextKey) :
    ((g.insert_with_id id v).2).get k = g.get k := by
  unfold get
  rw [insert_with_id_nodes, SlotMap.get_insert_ne g.nodes _ hk]

theorem get_reserve_with_id_fresh (g : NodeGroup I T) (id : I) (hwf : g.WF) :
    ((g.reserve_with_id id).2).get ⟨g.nodes.nextKey⟩ = none := by
  unfold get
  rw [reserve_with_id_nodes]
  rw [show (⟨g.nodes.nextKey⟩ : Key T).slot = (g.nodes.insert Slot.Reserved).1 from rfl]
  rw [SlotMap.get_insert_self g.nodes _ hwf.1]
  rfl

theorem nodes_get_reserve_with_id_fresh (g : NodeGroup I T) (id : I) (hwf : g.WF) :
    ((g.reserve_with_id id).2).nodes.get g.nodes.nextKey = some Slot.Reserved := by
  rw [reserve_with_id_nodes]
  exact SlotMap.get_insert_self g.nodes _ hwf.1

theorem WF_insert (g : NodeGroup I T) (v : T) (hwf : g.WF) : ((g.insert v).2).WF :=
  ⟨SlotMap.insert_WF g.nodes _ hwf.1, hwf.2⟩

theorem WF_insert_with_id (g : NodeGroup I T) (id : I) (v : T) (hwf : g.WF) :
    ((g.insert_with_id id v).2).WF := by
  refine ⟨SlotMap.insert_WF g.nodes _ hwf.1, ?_⟩
  rw [insert_with_id_id_map]
  exact assoc_insert_keys_nodup g.id_map id g.nodes.nextKey hwf.2

theorem WF_reserve_with_id (g : NodeGroup I T) (id : I) (hwf : g.WF) :
    ((g.reserve_with_id id).2).WF := by
  refine ⟨SlotMap.insert_WF g.nodes _ hwf.1, ?_⟩
  rw [reserve_with_id_id_map]
  exact assoc_insert_keys_nodup g.id_map id g.nodes.nextKey hwf.2

theorem WF_insert_reserved (g : NodeGroup I T) (rk : ReservedKey T) (v : T)
    {k : Key T} {g2 : NodeGroup I T} (h : g.insert_reserved rk v = some (k, g2))
    (hwf : g.WF) : g2.WF := by
  unfold insert_reserved at h
  cases hg : g.nodes.get rk.slot with
  | none => rw [hg] at h; exact absurd h (by simp)
  | some s =>
    rw [hg] at h
    simp only [Option.some.injEq, Prod.mk.injEq] at h
    rw [← h.2]
    exact ⟨SlotMap.set_WF g.nodes rk.slot _ hwf.1, hwf.2⟩

theorem WF_remove (g : NodeGroup I T) (k : Key T) (hwf : g.WF) :
    ((g.remove k).2).WF := by
  unfold remove
  cases hg : g.nodes.get k.slot with
  | none => simpa using hwf
  | some s =>
    cases s with
    | Reserved => simpa using hwf
    | Filled v =>
      simp only
      refine ⟨SlotMap.remove_WF g.nodes k.slot hwf.1, ?_⟩
      exact hwf.2.sublist ((List.filter_sublist g.id_map).map Prod.fst)

theorem get_key_set_nodes (g : NodeGroup I T) (m : SlotMap T) (id : I) :
    ({ g with nodes := m } : NodeGroup I T).get_key id = g.get_key id := rfl

theorem insert_reserved_of_get {g : NodeGroup I T} {rk : ReservedKey T}
    {s0 : Slot T} (v : T) (h : g.nodes.get rk.slot = some s0) :
    g.insert_reserved rk v
      = some (⟨rk.slot⟩, { g with nodes := g.nodes.set rk.slot (Slot.Filled v) }) := by
  unfold insert_reserved
  rw [h]

theorem get_fill_reserved {g : NodeGroup I T} {rk : ReservedKey T}
    {s0 : Slot T} (v : T) (h : g.nodes.get rk.slot = some s0) :
    ({ g with nodes := g.nodes.set rk.slot (Slot.Filled v) } : NodeGroup I T).get
      ⟨rk.slot⟩ = some v := by
  unfold get
  simp only
  rw [SlotMap.get_set_eq, h]
  rfl

end NodeGroup

/-! ### Claim theorems for the per-type group -/

/-- Claim C2: inserting `v1` under `id` and then `v2` under the same `id`
returns the first key as the previous key, makes `get_key` resolve to the
second key, and leaves the first slot intact, still resolving to `v1`
(index replacement only; the superseded slot is not removed). -/
theorem claim_C2 {I T : Type} [DecidableEq I] (g : NodeGroup I T) (hwf : g.WF)
    (id : I) (v1 v2 : T) :
    ((g.insert_with_id id v1).2.insert_with_id id v2).1.2
        = some (g.insert_with_id id v1).1.1 ∧
    (((g.insert_with_id id v1).2.insert_with_id id v2).2).get_key id
        = some ((g.insert_with_id id v1).2.insert_with_id id v2).1.1 ∧
    (((g.insert_with_id id v1).2.insert_with_id id v2).2).get
        (g.insert_with_id id v1).1.1 = some v1 := by
  refine ⟨?_, ?_, ?_⟩
  · rw [NodeGroup.insert_with_id_prev, NodeGroup.get_key_insert_with_id_self,
      NodeGroup.insert_with_id_key]
  · rw [NodeGroup.get_key_insert_with_id_self, NodeGroup.insert_with_id_key]
  · have hk : ((⟨g.nodes.nextKey⟩ : Key T)).slot
        ≠ ((g.insert_with_id id v1).2).nodes.nextKey := by
      show g.nodes.nextKey ≠ g.nodes.nextKey + 1
      exact Nat.ne_of_lt (Nat.lt_succ_self _)
    rw [NodeGroup.insert_with_id_key,
      NodeGroup.get_insert_with_id_stale _ id v2 hk,
      NodeGroup.get_insert_with_id_fresh g id v1 hwf]

/-- Witness for C2 on a concrete store over `I = Nat`, `T = Nat`. -/
theorem claim_C2_witness :
    (((NodeGroup.empty : NodeGroup Nat Nat).insert_with_id 1 10).2.insert_with_id 1 20).1.2
        = some ((NodeGroup.empty : NodeGroup Nat Nat).insert_with_id 1 10).1.1 ∧
    ((((NodeGroup.empty : NodeGroup Nat Nat).insert_with_id 1 10).2.insert_with_id 1 20).2).get_key 1
        = some (((NodeGroup.empty : NodeGroup Nat Nat).insert_with_id 1 10).2.insert_with_id 1 20).1.1 ∧
    ((((NodeGroup.empty : NodeGroup Nat Nat).insert_with_id 1 10).2.insert_with_id 1 20).2).get
        ((NodeGroup.empty : NodeGroup Nat Nat).insert_with_id 1 10).1.1 = some 10 :=
  claim_C2 NodeGroup.empty (by decide) 1 10 20

/-- Claim C4: after `remove k`, `get k` is absent, and for every other key
`get` is unchanged (removal affects no other key). -/
theorem claim_C4 {I T : Type} [DecidableEq I] (g : NodeGroup I T) (k : Key T) :
    ((g.remove k).2).get k = none ∧
    ∀ k' : Key T, k' ≠ k → ((g.remove k).2).get k' = g.get k' := by
  have hslot : ∀ k' : Key T, k' ≠ k → k'.slot ≠ k.slot := by
    intro k' hne hc
    exact hne (by cases k; cases k'; simpa using hc)
  unfold NodeGroup.remove
  cases hg : g.nodes.get k.slot with
  | none =>
    refine ⟨?_, fun k' _ => rfl⟩
    unfold NodeGroup.get
    rw [hg]
    rfl
  | some s =>
    cases s with
    | Reserved =>
      refine ⟨?_, fun k' _ => rfl⟩
      unfold NodeGroup.get
      rw [hg]
      rfl
    | Filled v =>
      simp only
      constructor
      · unfold NodeGroup.get
        simp only
        rw [SlotMap.get_remove_self]
        rfl
      · intro k' hne
        unfold NodeGroup.get
        simp only
        rw [SlotMap.get_remove_ne g.nodes (hslot k' hne)]

/-- Witness for C4: removing the first of two inserted values hides it and
leaves the second key's lookup unchanged. -/
theorem claim_C4_witness :
    (((((NodeGroup.empty : NodeGroup Nat Nat).insert 10).2.insert 20).2.remove ⟨0⟩).2).get ⟨0⟩
        = none ∧
    (((((NodeGroup.empty : NodeGroup Nat Nat).insert 10).2.insert 20).2.remove ⟨0⟩).2).get ⟨1⟩
        = (((NodeGroup.empty : NodeGroup Nat Nat).insert 10).2.insert 20).2.get ⟨1⟩ :=
  ⟨(claim_C4 (((NodeGroup.empty : NodeGroup Nat Nat).insert 10).2.insert 20).2 ⟨0⟩).1,
    (claim_C4 (((NodeGroup.empty : NodeGroup Nat Nat).insert 10).2.insert 20).2 ⟨0⟩).2
      ⟨1⟩ (by decide)⟩

/-- Claim C8: `insert_reserved` panics (returns `none` in the model) exactly
when the reserved slot no longer exists; when the slot still exists it
succeeds and the returned key retrieves the inserted value. -/
theorem claim_C8 {I T : Type} [DecidableEq I] (g : NodeGroup I T)
    (rk : ReservedKey T) (v : T) :
    (g.insert_reserved rk v = none ↔ g.nodes.get rk.slot = none) ∧
    ∀ s0, g.nodes.get rk.slot = some s0 →
      ∃ g2, g.insert_reserved rk v = some (⟨rk.slot⟩, g2) ∧
        g2.get ⟨rk.slot⟩ = some v := by
  unfold NodeGroup.insert_reserved
  cases hg : g.nodes.get rk.slot with
  | none =>
    refine ⟨by simp, ?_⟩
    intro s0 hs0
    exact absurd hs0 (by simp)
  | some s =>
    refine ⟨by simp, ?_⟩
    intro s0 hs0
    refine ⟨_, rfl, ?_⟩
    unfold NodeGroup.get
    simp only
    rw [SlotMap.get_set_eq, hg]
    rfl

/-- Witness for C8: filling a live reservation succeeds and the value becomes
retrievable. -/
theorem claim_C8_witness :
    (((((NodeGroup.empty : NodeGroup Nat Nat).reserve_with_id 7).2).insert_reserved ⟨0⟩ 42).map
        fun p => p.2.get ⟨0⟩) = some (some 42) := by
  obtain ⟨g2, h1, h2⟩ :=
    (claim_C8 ((NodeGroup.empty : NodeGroup Nat Nat).reserve_with_id 7).2 ⟨0⟩ 42).2
      Slot.Reserved (by decide)
  rw [h1]
  simpa using h2

/-- Claim C3: removing a filled slot returns the stored value, hides the key,
and deletes every id-index entry that pointed at the slot; removing a
still-reserved slot is a no-op returning `none` that leaves the group
completely unchanged. -/
theorem claim_C3 {I T : Type} [DecidableEq I] (g : NodeGroup I T) (k : Key T)
    (hwf : g.WF) :
    (∀ v, g.nodes.get k.slot = some (Slot.Filled v) →
      (g.remove k).1 = some v ∧
      ((g.remove k).2).get k = none ∧
      ∀ id, g.get_key id = some k → ((g.remove k).2).get_key id = none) ∧
    (g.nodes.get k.slot = some Slot.Reserved → g.remove k = (none, g)) := by
  constructor
  · intro v hv
    unfold NodeGroup.remove
    rw [hv]
    simp only
    refine ⟨?_, ?_, ?_⟩
    · rw [SlotMap.remove_fst, hv]
      rfl
    · unfold NodeGroup.get
      simp only
      rw [SlotMap.get_remove_self]
      rfl
    · intro id hid
      unfold NodeGroup.get_key at hid ⊢
      simp only
      cases hf : g.id_map.find? (fun e => e.1 == id) with
      | none =>
        rw [hf] at hid
        exact absurd hid (by simp)
      | some e =>
        rw [hf] at hid
        have he2 : e.2 = k.slot := by
          have h3 : Key.mk e.2 = k := by simpa using hid
          rw [← h3]
        have hmem := assoc_find?_mem_key hf
        have hfindnone :
            (g.id_map.filter fun e => !(e.2 == k.slot)).find? (fun e => e.1 == id)
              = none := by
          refine List.find?_eq_none.mpr ?_
          intro x hx
          obtain ⟨hxl, hxv⟩ := List.mem_filter.mp hx
          intro hxk
          have hx1 : x.1 = id := by simpa using hxk
          have hx2 : x.2 ≠ k.slot := by simpa using hxv
          have hxl2 : (id, x.2) ∈ g.id_map := by rw [← hx1]; exact hxl
          have hel2 : (id, e.2) ∈ g.id_map := by rw [← hmem.2]; exact hmem.1
          exact hx2 ((assoc_mem_unique hwf.2 hxl2 hel2).trans he2)
        rw [hfindnone]
        rfl
  · intro hv
    unfold NodeGroup.remove
    rw [hv]

/-- Witness for C3 on a concrete group: after `insert_with_id 1 10`, removing
the returned key yields the value, hides the key and clears the id entry. -/
theorem claim_C3_witness :
    ((((NodeGroup.empty : NodeGroup Nat Nat).insert_with_id 1 10).2).remove ⟨0⟩).1
        = some 10 ∧
    (((((NodeGroup.empty : NodeGroup Nat Nat).insert_with_id 1 10).2).remove ⟨0⟩).2).get ⟨0⟩
        = none ∧
    (((((NodeGroup.empty : NodeGroup Nat Nat).insert_with_id 1 10).2).remove ⟨0⟩).2).get_key 1
        = none := by
  have h :=
    (claim_C3 ((NodeGroup.empty : NodeGroup Nat Nat).insert_with_id 1 10).2 ⟨0⟩
      (by decide)).1 10 (by decide)
  exact ⟨h.1, h.2.1, h.2.2 1 (by decide)⟩

/-- Claim C7: every operation preserves the id-index invariant (each id entry
points at an existing slot), and a value inserted without an external id is
not reachable through the id index. -/
theorem claim_C7 {I T : Type} [DecidableEq I] (g : NodeGroup I T)
    (hwf : g.WF) (hok : g.IdIndexOK) :
    (∀ v : T, ((g.insert v).2).IdIndexOK ∧
      ∀ id : I, ((g.insert v).2).get_key id ≠ some (g.insert v).1) ∧
    (∀ (id : I) (v : T), ((g.insert_with_id id v).2).IdIndexOK) ∧
    (∀ id : I, ((g.reserve_with_id id).2).IdIndexOK) ∧
    (∀ (rk : ReservedKey T) (v : T) (k : Key T) (g2 : NodeGroup I T),
      g.insert_reserved rk v = some (k, g2) → g2.IdIndexOK) ∧
    (∀ k : Key T, ((g.remove k).2).IdIndexOK) := by
  have hlt : ∀ e ∈ g.id_map, e.2 < g.nodes.nextKey := fun e he =>
    SlotMap.get_isSome_lt g.nodes hwf.1 (hok e he)
  refine ⟨?_, ?_, ?_, ?_, ?_⟩
  · intro v
    constructor
    · intro e he
      have hne : e.2 ≠ g.nodes.nextKey := Nat.ne_of_lt (hlt e he)
      rw [NodeGroup.insert_nodes, SlotMap.get_insert_ne g.nodes _ hne]
      exact hok e he
    · intro id hc
      unfold NodeGroup.get_key at hc
      rw [NodeGroup.insert_id_map] at hc
      cases hf : g.id_map.find? (fun e => e.1 == id) with
      | none => rw [hf] at hc; exact absurd hc (by simp)
      | some e =>
        rw [hf] at hc
        have he2 : e.2 = g.nodes.nextKey := by
          have h3 : Key.mk e.2 = (g.insert v).1 := by simpa using hc
          have := congrArg Key.slot h3
          simpa [NodeGroup.insert_key] using this
        have hmem := assoc_find?_mem_key hf
        exact Nat.ne_of_lt (hlt e hmem.1) he2
  · intro id v e he
    rw [NodeGroup.insert_with_id_nodes]
    rw [NodeGroup.insert_with_id_id_map] at he
    unfold NodeGroup.idMapInsert at he
    rcases List.mem_append.mp he with h1 | h1
    · have hmem := List.mem_of_mem_filter h1
      have hne : e.2 ≠ g.nodes.nextKey := Nat.ne_of_lt (hlt e hmem)
      rw [SlotMap.get_insert_ne g.nodes _ hne]
      exact hok e hmem
    · have he' : e = (id, g.nodes.nextKey) := by simpa using h1
      rw [he']
      rw [show (id, g.nodes.nextKey).2 = (g.nodes.insert (Slot.Filled v)).1 from rfl]
      rw [SlotMap.get_insert_self g.nodes _ hwf.1]
      rfl
  · intro id e he
    rw [NodeGroup.reserve_with_id_nodes]
    rw [NodeGroup.reserve_with_id_id_map] at he
    unfold NodeGroup.idMapInsert at he
    rcases List.mem_append.mp he with h1 | h1
    · have hmem := List.mem_of_mem_filter h1
      have hne : e.2 ≠ g.nodes.nextKey := Nat.ne_of_lt (hlt e hmem)
      rw [SlotMap.get_insert_ne g.nodes _ hne]
      exact hok e hmem
    · have he' : e = (id, g.nodes.nextKey) := by simpa using h1
      rw [he']
      rw [show (id, g.nodes.nextKey).2 = (g.nodes.insert Slot.Reserved).1 from rfl]
      rw [SlotMap.get_insert_self g.nodes _ hwf.1]
      rfl
  · intro rk v k g2 h
    unfold NodeGroup.insert_reserved at h
    cases hg : g.nodes.get rk.slot with
    | none => rw [hg] at h; exact absurd h (by simp)
    | some s =>
      rw [hg] at h
      simp only [Option.some.injEq, Prod.mk.injEq] at h
      rw [← h.2]
      intro e he
      by_cases hek : e.2 = rk.slot
      · show ((g.nodes.set rk.slot (Slot.Filled v)).get e.2).isSome
        rw [hek, SlotMap.get_set_eq, hg]
        rfl
      · show ((g.nodes.set rk.slot (Slot.Filled v)).get e.2).isSome
        rw [SlotMap.get_set_ne g.nodes _ hek]
        exact hok e he
  · intro k
    unfold NodeGroup.remove
    cases hg : g.nodes.get k.slot with
    | none => exact hok
    | some s =>
      cases s with
      | Reserved => exact hok
      | Filled v =>
        simp only
        intro e he
        obtain ⟨hel, hev⟩ := List.mem_filter.mp he
        have hne : e.2 ≠ k.slot := by simpa using hev
        show (((g.nodes.remove k.slot).2).get e.2).isSome
        rw [SlotMap.get_remove_ne g.nodes hne]
        exact hok e hel

/-! ### Nodes (store) lemmas -/

namespace Nodes

variable {I : Type} [DecidableEq I] {τ : Type} [DecidableEq τ] {Val : τ → Type}

theorem updateGroup_groups_self (s : Nodes I τ Val) (t : τ)
    (g : NodeGroup I (Val t)) : (s.updateGroup t g).groups t = g := by
  show Function.update s.groups t g t = g
  exact Function.update_same t g s.groups

theorem updateGroup_groups_ne (s : Nodes I τ Val) {t u : τ}
    (g : NodeGroup I (Val t)) (h : u ≠ t) :
    (s.updateGroup t g).groups u = s.groups u := by
  show Function.update s.groups t g u = s.groups u
  exact Function.update_noteq h g s.groups

theorem mem_tags_updateGroup_self (s : Nodes I τ Val) (t : τ)
    (g : NodeGroup I (Val t)) : t ∈ (s.updateGroup t g).tags := by
  unfold updateGroup
  by_cases h : t ∈ s.tags <;> simp [h]

theorem mem_tags_updateGroup_of (s : Nodes I τ Val) (t : τ)
    (g : NodeGroup I (Val t)) {u : τ} (h : u ∈ s.tags) :
    u ∈ (s.updateGroup t g).tags := by
  unfold updateGroup
  by_cases ht : t ∈ s.tags <;> simp [ht, h]

theorem mem_tags_updateGroup_ne (s : Nodes I τ Val) {t u : τ}
    (g : NodeGroup I (Val t)) (h : u ≠ t) :
    u ∈ (s.updateGroup t g).tags ↔ u ∈ s.tags := by
  unfold updateGroup
  by_cases ht : t ∈ s.tags
  · simp [ht]
  · simp [ht, List.mem_append, h]

theorem reserve_with_id_fst (s : Nodes I τ Val) (t : τ) (id : I) :
    (s.reserve_with_id t id).1 = ((s.groups t).reserve_with_id id).1 := rfl

theorem reserve_with_id_snd (s : Nodes I τ Val) (t : τ) (id : I) :
    (s.reserve_with_id t id).2
      = s.updateGroup t ((s.groups t).reserve_with_id id).2 := rfl

theorem insert_with_id_fst (s : Nodes I τ Val) (t : τ) (id : I) (v : Val t) :
    (s.insert_with_id t id v).1 = ((s.groups t).insert_with_id id v).1 := rfl

theorem insert_with_id_snd (s : Nodes I τ Val) (t : τ) (id : I) (v : Val t) :
    (s.insert_with_id t id v).2
      = s.updateGroup t ((s.groups t).insert_with_id id v).2 := rfl

theorem insert_reserved_eq (s : Nodes I τ Val) (t : τ) (rk : ReservedKey (Val t))
    (v : Val t) :
    s.insert_reserved t rk v
      = ((s.groups t).insert_reserved rk v).map fun p => (p.1, s.updateGroup t p.2) := rfl

theorem get_key_updateGroup_self (s : Nodes I τ Val) (t : τ)
    (g : NodeGroup I (Val t)) (id : I) :
    (s.updateGroup t g).get_key t id = g.get_key id := by
  unfold get_key
  rw [if_pos (mem_tags_updateGroup_self s t g), updateGroup_groups_self]

theorem get_updateGroup_self (s : Nodes I τ Val) (t : τ)
    (g : NodeGroup I (Val t)) (k : Key (Val t)) :
    (s.updateGroup t g).get t k = g.get k := by
  unfold get
  rw [if_pos (mem_tags_updateGroup_self s t g), updateGroup_groups_self]

theorem get_key_updateGroup_ne (s : Nodes I τ Val) {t u : τ}
    (g : NodeGroup I (Val t)) (h : u ≠ t) (id : I) :
    (s.updateGroup t g).get_key u id = s.get_key u id := by
  unfold get_key
  rw [updateGroup_groups_ne s g h]
  by_cases hu : u ∈ s.tags
  · rw [if_pos ((mem_tags_updateGroup_ne s g h).mpr hu), if_pos hu]
  · rw [if_neg (fun hc => hu ((mem_tags_updateGroup_ne s g h).mp hc)), if_neg hu]

end Nodes

/-- Witness for C7: the invariant holds after inserting into, and after
removing from, a concrete group with one id-indexed slot. -/
theorem claim_C7_witness :
    ((((NodeGroup.empty : NodeGroup Nat Nat).insert_with_id 1 10).2.insert 20).2).IdIndexOK ∧
    ((((NodeGroup.empty : NodeGroup Nat Nat).insert_with_id 1 10).2.remove ⟨0⟩).2).IdIndexOK :=
  ⟨((claim_C7 ((NodeGroup.empty : NodeGroup Nat Nat).insert_with_id 1 10).2
      (by decide) (by decide)).1 20).1,
    (claim_C7 ((NodeGroup.empty : NodeGroup Nat Nat).insert_with_id 1 10).2
      (by decide) (by decide)).2.2.2.2 ⟨0⟩⟩

/-! ### Claim theorems for the store and the erased handle layer -/

/-- Claim C1: after `reserve_with_id` the id resolves to a key whose `get` is
absent (a reserved-but-unfilled slot is invisible), and after filling the
reservation with `insert_reserved` the same key retrieves the inserted
value. -/
theorem claim_C1 {I : Type} [DecidableEq I] {τ : Type} [DecidableEq τ]
    {Val : τ → Type} (s : Nodes I τ Val) (hwf : s.WF) (t : τ) (id : I)
    (v : Val t) :
    ∃ k : Key (Val t),
      ((s.reserve_with_id t id).2).get_key t id = some k ∧
      ((s.reserve_with_id t id).2).get t k = none ∧
      ∃ (k2 : Key (Val t)) (s2 : Nodes I τ Val),
        ((s.reserve_with_id t id).2).insert_reserved t (s.reserve_with_id t id).1.1 v
          = some (k2, s2) ∧
        s2.get_key t id = some k ∧ s2.get t k = some v := by
  have hgwf : (s.groups t).WF := hwf.2 t
  refine ⟨⟨(s.groups t).nodes.nextKey⟩, ?_, ?_, ?_⟩
  · rw [Nodes.reserve_with_id_snd, Nodes.get_key_updateGroup_self,
      NodeGroup.get_key_reserve_with_id_self]
  · rw [Nodes.reserve_with_id_snd, Nodes.get_updateGroup_self,
      NodeGroup.get_reserve_with_id_fresh _ _ hgwf]
  · have hres : ((s.groups t).reserve_with_id id).2.nodes.get
        (s.groups t).nodes.nextKey = some Slot.Reserved :=
      NodeGroup.nodes_get_reserve_with_id_fresh _ id hgwf
    have hrk : ((s.reserve_with_id t id).1.1 : ReservedKey (Val t))
        = ⟨(s.groups t).nodes.nextKey⟩ := rfl
    rw [Nodes.reserve_with_id_snd, hrk, Nodes.insert_reserved_eq,
      Nodes.updateGroup_groups_self,
      NodeGroup.insert_reserved_of_get v hres]
    refine ⟨_, _, rfl, ?_, ?_⟩
    · rw [Nodes.get_key_updateGroup_self, NodeGroup.get_key_set_nodes,
        NodeGroup.get_key_reserve_with_id_self]
    · rw [Nodes.get_updateGroup_self]
      exact NodeGroup.get_fill_reserved v hres

/-- Witness for C1 on a concrete store over tags `Bool` with `Nat` values:
reserving id `5` for tag `true`, the key is issued but invisible, and filling
it makes the value retrievable. -/
theorem claim_C1_witness :
    (((Nodes.new Nat Bool fun _ => Nat).reserve_with_id true 5).2).get_key true 5
        = some ⟨0⟩ ∧
    (((Nodes.new Nat Bool fun _ => Nat).reserve_with_id true 5).2).get true ⟨0⟩
        = none ∧
    (((((Nodes.new Nat Bool fun _ => Nat).reserve_with_id true 5).2).insert_reserved true
        ((Nodes.new Nat Bool fun _ => Nat).reserve_with_id true 5).1.1 42).map
      fun p => (p.2.get_key true 5, p.2.get true ⟨0⟩)) = some (some ⟨0⟩, some 42) := by
  obtain ⟨k, h1, h2, k2, s2, h3, h4, h5⟩ :=
    claim_C1 (Nodes.new Nat Bool fun _ => Nat) (by decide) true 5 42
  have hk : k = ⟨0⟩ := by
    have h0 : (((Nodes.new Nat Bool fun _ => Nat).reserve_with_id true 5).2).get_key true 5
        = some ⟨0⟩ := by decide
    rw [h0] at h1
    exact (Option.some.inj h1).symm
  rw [hk] at h1 h2 h4 h5
  exact ⟨h1, h2, by rw [h3]; simp [h4, h5]⟩

/-- Claim C6: converting a typed key to a `DynKey` and back succeeds for the
originating type and fails for every other type (the single checked downcast
in the handle layer). -/
theorem claim_C6 {τ : Type} [DecidableEq τ] (Val : τ → Type) (t u : τ)
    (k : Key (Val t)) (hne : u ≠ t) :
    DynKey.into_static Val t (DynKey.new Val t k) = some k ∧
    DynKey.into_static Val u (DynKey.new Val t k) = none := by
  constructor
  · show (if t = t then some (⟨k.slot⟩ : Key (Val t)) else none) = some k
    rw [if_pos rfl]
  · show (if t = u then some (⟨k.slot⟩ : Key (Val u)) else none) = none
    rw [if_neg (fun hc => hne hc.symm)]

/-- Witness for C6 with tags `Bool`: the round trip at tag `true` succeeds
and the downcast at tag `false` fails. -/
theorem claim_C6_witness :
    DynKey.into_static (fun _ => Nat) true (DynKey.new (fun _ => Nat) true ⟨3⟩)
        = some ⟨3⟩ ∧
    DynKey.into_static (fun _ => Nat) false (DynKey.new (fun _ => Nat) true ⟨3⟩)
        = none :=
  claim_C6 (fun _ => Nat) true false ⟨3⟩ (by decide)

/-- Claim C9: id indexes are scoped per concrete type: inserting under the
same id for two distinct types does not collide, each type's `get_key`
resolves to its own slot, and an insertion for one type leaves the other
type's id lookups unchanged. -/
theorem claim_C9 {I : Type} [DecidableEq I] {τ : Type} [DecidableEq τ]
    {Val : τ → Type} (s : Nodes I τ Val) (A B : τ) (hAB : A ≠ B) (id : I)
    (a : Val A) (b : Val B) :
    (((s.insert_with_id A id a).2.insert_with_id B id b).2).get_key A id
        = some (s.insert_with_id A id a).1.1 ∧
    (((s.insert_with_id A id a).2.insert_with_id B id b).2).get_key B id
        = some ((s.insert_with_id A id a).2.insert_with_id B id b).1.1 ∧
    ∀ id2 : I, ((s.insert_with_id A id a).2).get_key B id2 = s.get_key B id2 := by
  refine ⟨?_, ?_, ?_⟩
  · rw [Nodes.insert_with_id_snd ((s.insert_with_id A id a).2),
      Nodes.get_key_updateGroup_ne _ _ hAB,
      Nodes.insert_with_id_snd, Nodes.get_key_updateGroup_self,
      NodeGroup.get_key_insert_with_id_self]
    rfl
  · rw [Nodes.insert_with_id_snd ((s.insert_with_id A id a).2),
      Nodes.get_key_updateGroup_self, NodeGroup.get_key_insert_with_id_self]
    rfl
  · intro id2
    rw [Nodes.insert_with_id_snd,
      Nodes.get_key_updateGroup_ne _ _ (fun hc => hAB hc.symm)]

/-- Witness for C9 on a concrete store over tags `Bool`: id `5` used for both
tags resolves independently. -/
theorem claim_C9_witness :
    ((((Nodes.new Nat Bool fun _ => Nat).insert_with_id true 5 1).2.insert_with_id
        false 5 2).2).get_key true 5
        = some ((Nodes.new Nat Bool fun _ => Nat).insert_with_id true 5 1).1.1 ∧
    ((((Nodes.new Nat Bool fun _ => Nat).insert_with_id true 5 1).2.insert_with_id
        false 5 2).2).get_key false 5
        = some (((Nodes.new Nat Bool fun _ => Nat).insert_with_id true 5 1).2.insert_with_id
            false 5 2).1.1 ∧
    (((Nodes.new Nat Bool fun _ => Nat).insert_with_id true 5 1).2).get_key false 7
        = (Nodes.new Nat Bool fun _ => Nat).get_key false 7 :=
  ⟨(claim_C9 (Nodes.new Nat Bool fun _ => Nat) true false (by decide) 5 1 2).1,
    (claim_C9 (Nodes.new Nat Bool fun _ => Nat) true false (by decide) 5 1 2).2.1,
    (claim_C9 (Nodes.new Nat Bool fun _ => Nat) true false (by decide) 5 1 2).2.2 7⟩

/-! ### Iteration lemmas -/

theorem length_filterMap_countP {A B : Type} (f : A → Option B) (p : A → Bool)
    (h : ∀ a, (f a).isSome = p a) (l : List A) :
    (l.filterMap f).length = l.countP p := by
  induction l with
  | nil => rfl
  | cons a l ih =>
    cases hf : f a with
    | none =>
      rw [List.filterMap_cons_none hf,
        List.countP_cons_of_neg p l (by rw [← h a, hf]; simp), ih]
    | some b =>
      rw [List.filterMap_cons_some hf,
        List.countP_cons_of_pos p l (by rw [← h a, hf]; rfl)]
      simp [ih]

namespace NodeGroup

variable {I : Type} [DecidableEq I] {τ : Type} [DecidableEq τ] {Val : τ → Type}

theorem iter_dyn_length (t : τ) (g : NodeGroup I (Val t)) :
    (NodeGroup.iter_dyn t g).length = g.filledCount := by
  unfold iter_dyn filledCount
  refine length_filterMap_countP _ _ (fun e => ?_) _
  cases e.2 <;> rfl

theorem iter_dyn_mut_eq_group (t : τ) (g : NodeGroup I (Val t)) :
    NodeGroup.iter_dyn_mut t g = NodeGroup.iter_dyn t g := rfl

theorem mem_iter_dyn_group {t : τ} {g : NodeGroup I (Val t)}
    {p : DynKey τ × DynVal Val} :
    p ∈ NodeGroup.iter_dyn t g ↔
      ∃ k v, (k, Slot.Filled v) ∈ g.nodes.entries ∧ p = (⟨k, t⟩, ⟨t, v⟩) := by
  unfold iter_dyn
  rw [List.mem_filterMap]
  constructor
  · rintro ⟨e, he, hf⟩
    obtain ⟨k, sl⟩ := e
    cases sl with
    | Reserved => exact absurd hf (by simp [Slot.as_filled])
    | Filled v =>
      refine ⟨k, v, he, ?_⟩
      have : (⟨k, t⟩, (⟨t, v⟩ : DynVal Val)) = p := by
        simpa [Slot.as_filled] using hf
      exact this.symm
  · rintro ⟨k, v, hmem, rfl⟩
    exact ⟨(k, Slot.Filled v), hmem, rfl⟩

theorem iter_dyn_keys_nodup (t : τ) (g : NodeGroup I (Val t)) (hwf : g.WF) :
    ((NodeGroup.iter_dyn t g).map Prod.fst).Nodup := by
  have hsub : List.Sublist ((NodeGroup.iter_dyn t g).map Prod.fst)
      (g.nodes.entries.map fun e => (⟨e.1, t⟩ : DynKey τ)) := by
    unfold iter_dyn
    induction g.nodes.entries with
    | nil => simp
    | cons e l ih =>
      cases hf : e.2.as_filled with
      | none =>
        rw [List.filterMap_cons_none (by rw [hf]; rfl), List.map_cons]
        exact ih.cons _
      | some v =>
        rw [List.filterMap_cons_some (by rw [hf]; rfl), List.map_cons, List.map_cons]
        exact ih.cons₂ _
  refine List.Nodup.sublist hsub ?_
  have hmm : (g.nodes.entries.map fun e => (⟨e.1, t⟩ : DynKey τ))
      = (g.nodes.entries.map Prod.fst).map fun k => (⟨k, t⟩ : DynKey τ) := by
    rw [List.map_map]
    rfl
  rw [hmm]
  exact hwf.1.1.map fun a b hab => by simpa using congrArg DynKey.slot hab

theorem get_of_mem_entries {t : τ} {g : NodeGroup I (Val t)} (hwf : g.WF)
    {k : Nat} {v : Val t} (hmem : (k, Slot.Filled v) ∈ g.nodes.entries) :
    g.get ⟨k⟩ = some v := by
  unfold get SlotMap.get
  rw [assoc_find?_eq_of_mem hwf.1.1 hmem]
  rfl

end NodeGroup

namespace Nodes

variable {I : Type} [DecidableEq I] {τ : Type} [DecidableEq τ] {Val : τ → Type}

theorem iter_dyn_mut_eq (s : Nodes I τ Val) : s.iter_dyn_mut = s.iter_dyn := rfl

theorem mem_iter_dyn {s : Nodes I τ Val} {p : DynKey τ × DynVal Val} :
    p ∈ s.iter_dyn ↔ ∃ t ∈ s.tags, p ∈ NodeGroup.iter_dyn t (s.groups t) := by
  unfold iter_dyn
  exact List.mem_flatMap

theorem length_iter_dyn (s : Nodes I τ Val) : s.iter_dyn.length = s.totalFilled := by
  unfold iter_dyn totalFilled
  rw [List.length_flatMap]
  congr 1
  refine List.map_congr_left fun t ht => ?_
  exact NodeGroup.iter_dyn_length t (s.groups t)

theorem reserved_not_in_iter_dyn {s : Nodes I τ Val} (hwf : s.WF) {t : τ}
    {slot : Nat} (hres : (s.groups t).nodes.get slot = some Slot.Reserved) :
    ∀ p ∈ s.iter_dyn, p.1 ≠ (⟨slot, t⟩ : DynKey τ) := by
  intro p hp hc
  rcases mem_iter_dyn.mp hp with ⟨u, hu, hpt⟩
  rcases NodeGroup.mem_iter_dyn_group.mp hpt with ⟨k, v, hmem, rfl⟩
  have hk : k = slot := congrArg DynKey.slot hc
  have hut : u = t := congrArg DynKey.node_type hc
  rw [← hut] at hres
  rw [← hk] at hres
  have hfill := NodeGroup.get_of_mem_entries (hwf.2 u) hmem
  unfold NodeGroup.get at hfill
  rw [show ((⟨k⟩ : Key (Val u))).slot = k from rfl, hres] at hfill
  exact absurd hfill (by simp [Slot.as_filled])

theorem WF_updateGroup (s : Nodes I τ Val) (t : τ) (g : NodeGroup I (Val t))
    (hwf : s.WF) (hg : g.WF) : (s.updateGroup t g).WF := by
  constructor
  · unfold updateGroup
    by_cases ht : t ∈ s.tags
    · simpa [ht] using hwf.1
    · simp only [ht, if_false]
      refine List.Nodup.append hwf.1 (by simp) ?_
      intro a ha
      simp only [List.mem_singleton]
      intro hc
      exact ht (hc ▸ ha)
  · intro u
    by_cases hu : u = t
    · subst hu
      rw [updateGroup_groups_self]
      exact hg
    · rw [updateGroup_groups_ne s g hu]
      exact hwf.2 u

end Nodes

/-- Claim C5: over a well-formed store, the dynamic traversal yields exactly
one pair per filled value, all yielded `DynKey`s are pairwise distinct, and
each pair is consistent with `get_dyn` and with the typed `get` at the
downcast key. -/
theorem claim_C5 {I : Type} [DecidableEq I] {τ : Type} [DecidableEq τ]
    {Val : τ → Type} (s : Nodes I τ Val) (hwf : s.WF) :
    s.iter_dyn.length = s.totalFilled ∧
    (s.iter_dyn.map Prod.fst).Nodup ∧
    ∀ p ∈ s.iter_dyn,
      s.get_dyn p.1 = some p.2 ∧
      DynKey.into_static Val p.1.node_type p.1 = some ⟨p.1.slot⟩ ∧
      (s.get p.1.node_type ⟨p.1.slot⟩).map
          (fun v => (⟨p.1.node_type, v⟩ : DynVal Val)) = some p.2 := by
  refine ⟨?_, ?_, ?_⟩
  · exact Nodes.length_iter_dyn s
  · unfold Nodes.iter_dyn
    rw [List.map_flatMap]
    refine List.nodup_flatMap.mpr ⟨?_, ?_⟩
    · intro t ht
      exact NodeGroup.iter_dyn_keys_nodup t (s.groups t) (hwf.2 t)
    · refine hwf.1.imp ?_
      intro t1 t2 hne dk h1 h2
      rcases List.mem_map.mp h1 with ⟨p1, hp1, hdk1⟩
      rcases List.mem_map.mp h2 with ⟨p2, hp2, hdk2⟩
      rcases NodeGroup.mem_iter_dyn_group.mp hp1 with ⟨k1, v1, _, rfl⟩
      rcases NodeGroup.mem_iter_dyn_group.mp hp2 with ⟨k2, v2, _, rfl⟩
      apply hne
      have ht1 : dk.node_type = t1 := by rw [← hdk1]
      have ht2 : dk.node_type = t2 := by rw [← hdk2]
      rw [← ht1, ht2]
  · intro p hp
    rcases Nodes.mem_iter_dyn.mp hp with ⟨t, ht, hpt⟩
    rcases NodeGroup.mem_iter_dyn_group.mp hpt with ⟨k, v, hmem, rfl⟩
    have hget : (s.groups t).get ⟨k⟩ = some v :=
      NodeGroup.get_of_mem_entries (hwf.2 t) hmem
    refine ⟨?_, ?_, ?_⟩
    · show Nodes.get_dyn s ⟨k, t⟩ = some ⟨t, v⟩
      unfold Nodes.get_dyn
      rw [if_pos (show (⟨k, t⟩ : DynKey τ).node_type ∈ s.tags from ht)]
      unfold NodeGroup.get_dyn DynKey.into_static
      rw [if_pos rfl]
      show ((s.groups t).get ⟨k⟩).map (fun v => (⟨t, v⟩ : DynVal Val)) = some ⟨t, v⟩
      rw [hget]
      rfl
    · show DynKey.into_static Val t ⟨k, t⟩ = some ⟨k⟩
      unfold DynKey.into_static
      rw [if_pos rfl]
    · show (s.get t ⟨k⟩).map (fun v => (⟨t, v⟩ : DynVal Val)) = some ⟨t, v⟩
      unfold Nodes.get
      rw [if_pos ht, hget]
      rfl

/-- Witness for C5 on a concrete two-type store with three values. -/
theorem claim_C5_witness :
    ((((Nodes.new Nat Bool fun _ => Nat).insert true 10).2.insert_with_id false 5
        20).2.insert false 30).2.iter_dyn.length
      = (((((Nodes.new Nat Bool fun _ => Nat).insert true 10).2.insert_with_id false 5
        20).2.insert false 30).2).totalFilled ∧
    (((((Nodes.new Nat Bool fun _ => Nat).insert true 10).2.insert_with_id false 5
        20).2.insert false 30).2.iter_dyn.map Prod.fst).Nodup :=
  ⟨(claim_C5 ((((Nodes.new Nat Bool fun _ => Nat).insert true 10).2.insert_with_id
      false 5 20).2.insert false 30).2 (by decide)).1,
    (claim_C5 ((((Nodes.new Nat Bool fun _ => Nat).insert true 10).2.insert_with_id
      false 5 20).2.insert false 30).2 (by decide)).2.1⟩

/-- Claim C10: the dynamic traversals yield only filled slots.  A reserved
slot's `DynKey` never appears in `iter_dyn` or `iter_dyn_mut` (and
`nodes_dyn`/`nodes_dyn_mut` traverse the same pairs with the key dropped),
the pair count equals the number of filled slots, and in particular after
`reserve_with_id` the id resolves to a key that no traversal yields. -/
theorem claim_C10 {I : Type} [DecidableEq I] {τ : Type} [DecidableEq τ]
    {Val : τ → Type} (s : Nodes I τ Val) (hwf : s.WF) :
    (∀ (t : τ) (slot : Nat),
      (s.groups t).nodes.get slot = some Slot.Reserved →
        (∀ p ∈ s.iter_dyn, p.1 ≠ (⟨slot, t⟩ : DynKey τ)) ∧
        (∀ p ∈ s.iter_dyn_mut, p.1 ≠ (⟨slot, t⟩ : DynKey τ))) ∧
    s.iter_dyn.length = s.totalFilled ∧
    s.nodes_dyn.length = s.totalFilled ∧
    s.nodes_dyn_mut.length = s.totalFilled ∧
    ∀ (t : τ) (id : I),
      ((s.reserve_with_id t id).2).get_key t id
          = some ⟨(s.groups t).nodes.nextKey⟩ ∧
      ∀ p ∈ ((s.reserve_with_id t id).2).iter_dyn,
        p.1 ≠ (⟨(s.groups t).nodes.nextKey, t⟩ : DynKey τ) := by
  refine ⟨?_, Nodes.length_iter_dyn s, ?_, ?_, ?_⟩
  · intro t slot hres
    refine ⟨Nodes.reserved_not_in_iter_dyn hwf hres, ?_⟩
    rw [Nodes.iter_dyn_mut_eq]
    exact Nodes.reserved_not_in_iter_dyn hwf hres
  · show (s.iter_dyn.map Prod.snd).length = s.totalFilled
    rw [List.length_map]
    exact Nodes.length_iter_dyn s
  · show (s.iter_dyn_mut.map Prod.snd).length = s.totalFilled
    rw [Nodes.iter_dyn_mut_eq, List.length_map]
    exact Nodes.length_iter_dyn s
  · intro t id
    have hgwf := hwf.2 t
    constructor
    · rw [Nodes.reserve_with_id_snd, Nodes.get_key_updateGroup_self,
        NodeGroup.get_key_reserve_with_id_self]
    · have hres : (((s.reserve_with_id t id).2).groups t).nodes.get
          (s.groups t).nodes.nextKey = some Slot.Reserved := by
        rw [Nodes.reserve_with_id_snd, Nodes.updateGroup_groups_self]
        exact NodeGroup.nodes_get_reserve_with_id_fresh _ id hgwf
      have hwf2 : ((s.reserve_with_id t id).2).WF := by
        rw [Nodes.reserve_with_id_snd]
        exact Nodes.WF_updateGroup s t _ hwf (NodeGroup.WF_reserve_with_id _ id hgwf)
      exact Nodes.reserved_not_in_iter_dyn hwf2 hres

/-- Witness for C10 on a concrete store: reserving id `9` for tag `true`
yields key `0` via `get_key`, while the traversal (which holds one filled
value of the other tag) never yields that `DynKey`, and the pair count equals
the filled count. -/
theorem claim_C10_witness :
    ((((Nodes.new Nat Bool fun _ => Nat).insert_with_id false 5 20).2.reserve_with_id
        true 9).2).get_key true 9 = some ⟨0⟩ ∧
    (((⟨0, false⟩ : DynKey Bool), (⟨false, 20⟩ : DynVal fun _ => Nat)).1
        ≠ (⟨0, true⟩ : DynKey Bool)) ∧
    (((Nodes.new Nat Bool fun _ => Nat).insert_with_id false 5 20).2).iter_dyn.length
        = (((Nodes.new Nat Bool fun _ => Nat).insert_with_id false 5 20).2).totalFilled :=
  ⟨((claim_C10 ((Nodes.new Nat Bool fun _ => Nat).insert_with_id false 5 20).2
      (by decide)).2.2.2.2 true 9).1,
    ((claim_C10 ((Nodes.new Nat Bool fun _ => Nat).insert_with_id false 5 20).2
      (by decide)).2.2.2.2 true 9).2
      ((⟨0, false⟩ : DynKey Bool), (⟨false, 20⟩ : DynVal fun _ => Nat)) (by decide),
    (claim_C10 ((Nodes.new Nat Bool fun _ => Nat).insert_with_id false 5 20).2
      (by decide)).2.1⟩

end TypedNodes
